import Mathlib

/-!
# Verification of `cim.py`: `generate_cim_content`

A shallow embedding of the row-to-record transformation of the repository's
`.cim` file generator.  The source function iterates over the rows of a
pandas DataFrame, extracts and formats the fields of each row, and writes a
fixed seven-line batch-load record per valid row into an `io.StringIO`
opened with `newline='\r\n'` (so every `'\n'` character written is expanded
to `"\r\n"`).

Modelling choices, all documented at the definition they concern:
* a DataFrame row is an association list from column name to cell value
  (pandas has already mangled the duplicate `dr acct` header to
  `dr acct.1` before `generate_cim_content` runs);
* a cell is missing (`NaN`), a string, a number, or a date;
* numeric cells are signed decimal literals (`PyNum`), the form spreadsheet
  numbers take; `pd.to_numeric(·, errors='coerce')` is `toNumeric`,
  `pd.to_datetime` is `toDatetime`, `pd.notna` is `notna`;
* the one step of the per-row `try` block that can raise is
  `pd.to_datetime` on a present but unparseable value; `effDateStr`
  returns `none` exactly there, and `processRow` turns that into
  `RowOut.err`, the branch the source's `except` clause handles by
  emitting a warning naming `index + 2` and continuing.
-/

namespace Cim

/-- A decimal digit. -/
abbrev Digit := Fin 10

/-- A Python float as it arises from a spreadsheet cell or from parsing a
decimal literal: a sign, an integer part and a list of fraction digits.
(Floats outside this shape — infinities, NaN payloads, exponent-notation
magnitudes — do not arise from the template's cells and are not modelled.) -/
structure PyNum where
  neg : Bool
  ip : Nat
  fp : List Digit

/-- A spreadsheet cell as pandas hands it to `generate_cim_content`:
missing (`NaN` — also standing for an absent key's `None`), a string,
a number, or a date (`pd.Timestamp`, at day granularity). -/
inductive Cell where
  | blank
  | str (s : String)
  | num (d : PyNum)
  | date (y m d : Nat)

/-- One DataFrame row: column name to cell value, distinct keys. -/
abbrev Row := List (String × Cell)

/-- `row.get(k, dflt)` — pandas `Series.get` with an explicit default. -/
def rowGetD (r : Row) (k : String) (dflt : Cell) : Cell :=
  (List.lookup k r).getD dflt

/-- `row.get(k)` — pandas `Series.get` with default `None`; an absent key
behaves like a missing value in every use site (`pd.to_numeric`,
`pd.notna`), so it is collapsed to `Cell.blank`. -/
def rowGet (r : Row) (k : String) : Cell :=
  (List.lookup k r).getD Cell.blank

/-- The character of a decimal digit. -/
def digitCh (x : Digit) : Char := Char.ofNat (48 + x.val)

/-- Drop trailing zero digits of a fraction (Python's shortest float repr
prints `5.5`, not `5.50`). -/
def stripZeros (l : List Digit) : List Digit :=
  (l.reverse.dropWhile (fun x => x == 0)).reverse

/-- The numeric value of a string of decimal digit characters. -/
def natOfDigits (cs : List Char) : Nat :=
  cs.foldl (fun a c => a * 10 + (c.toNat - 48)) 0

/-- The digit of a decimal digit character. -/
def charDigit (c : Char) : Digit :=
  ⟨(c.toNat - 48) % 10, Nat.mod_lt _ (by norm_num)⟩

/-- The rational value of a list of fraction digits: `[a, b]` is
`a/10 + b/100`. -/
def fracVal (l : List Digit) : ℚ :=
  l.foldr (fun x acc => ((x.val : ℚ) + acc) / 10) 0

/-- The rational value of a `PyNum`. -/
def PyNum.toRat (d : PyNum) : ℚ :=
  (if d.neg then -1 else 1) * ((d.ip : ℚ) + fracVal d.fp)

/-- Python `int()` on the float: truncation toward zero, which on a decimal
literal just discards the fraction digits. -/
def PyNum.toInt (d : PyNum) : Int :=
  if d.neg then -(d.ip : Int) else (d.ip : Int)

/-- The source's wholeness test `qty_val == int(qty_val)`: a decimal
literal equals its own truncation exactly when every fraction digit is
zero.  The lemma `whole_iff_value` below proves this executable form
coincides with the value-level comparison the source performs. -/
def PyNum.whole (d : PyNum) : Bool :=
  d.fp.all (fun x => x == 0)

/-- Python `str()` of the float: integer part, a point, and the fraction
digits with trailing zeros dropped (a whole float prints as `5.0`). -/
def PyNum.pyStr (d : PyNum) : String :=
  (if d.neg then "-" else "") ++ Nat.repr d.ip ++ "." ++
    (match stripZeros d.fp with
     | [] => "0"
     | f => String.mk (f.map digitCh))

/-- Python `str.strip()`: remove leading and trailing whitespace. -/
def pyStrip (s : String) : String :=
  String.mk (((s.data.dropWhile Char.isWhitespace).reverse.dropWhile
    Char.isWhitespace).reverse)

/-- Python `str.lower()`. -/
def pyLower (s : String) : String :=
  String.mk (s.data.map Char.toLower)

/-- Zero-padded two-digit rendering (strftime `%y`, `%m`, `%d` fields). -/
def pad2 (n : Nat) : String :=
  if n < 10 then "0" ++ Nat.repr n else Nat.repr n

/-- Zero-padded four-digit year. -/
def pad4 (n : Nat) : String :=
  if n < 10 then "000" ++ Nat.repr n
  else if n < 100 then "00" ++ Nat.repr n
  else if n < 1000 then "0" ++ Nat.repr n
  else Nat.repr n

/-- Python `str()` of a cell: `str(nan)` is `"nan"`, a string is itself, a
float prints via `PyNum.pyStr`, a day-granularity `pd.Timestamp` prints as
`YYYY-MM-DD 00:00:00`. -/
def cellStr : Cell → String
  | Cell.blank => "nan"
  | Cell.str s => s
  | Cell.num d => d.pyStr
  | Cell.date y m d => pad4 y ++ "-" ++ pad2 m ++ "-" ++ pad2 d ++ " 00:00:00"

/-- `pd.notna`: false exactly on a missing value. -/
def notna : Cell → Bool
  | Cell.blank => false
  | _ => true

/-- `pd.to_numeric(·, errors='coerce')` on a cell, `none` standing for the
`NaN` that coercion failure yields.  A string is parsed as a decimal
literal (`parseFloat`); a missing value stays `NaN`; a date does not
coerce. -/
def parseFloat (s : String) : Option PyNum :=
  let cs := (pyStrip s).data
  let sgn : Bool × List Char :=
    match cs with
    | '-' :: rest => (true, rest)
    | '+' :: rest => (false, rest)
    | _ => (false, cs)
  let ipCs := sgn.2.takeWhile Char.isDigit
  let rest := sgn.2.dropWhile Char.isDigit
  match rest with
  | [] => if ipCs.isEmpty then none else some ⟨sgn.1, natOfDigits ipCs, []⟩
  | '.' :: fpCs =>
      if fpCs.all Char.isDigit && !(ipCs.isEmpty && fpCs.isEmpty) then
        some ⟨sgn.1, natOfDigits ipCs, fpCs.map charDigit⟩
      else none
  | _ => none

def toNumeric : Cell → Option PyNum
  | Cell.num d => some d
  | Cell.str s => parseFloat s
  | _ => none

/-- Gregorian leap year. -/
def leapYear (y : Nat) : Bool :=
  (y % 4 == 0 && y % 100 != 0) || y % 400 == 0

/-- Days in a month. -/
def daysInMonth (y m : Nat) : Nat :=
  if m == 2 then (if leapYear y then 29 else 28)
  else if m == 4 || m == 6 || m == 9 || m == 11 then 30
  else 31

/-- The calendar date of a day count from the epoch 1970-01-01
(the standard civil-from-days computation); pandas timestamps lie in
1677–2262, so the year is a positive `Nat`. -/
def civilFromDays (z0 : Int) : Nat × Nat × Nat :=
  let z := z0 + 719468
  let era : Int := z.fdiv 146097
  let doe : Int := z - era * 146097
  let yoe : Int := (doe - doe.fdiv 1460 + doe.fdiv 36524 - doe.fdiv 146096).fdiv 365
  let y : Int := yoe + era * 400
  let doy : Int := doe - (365 * yoe + yoe.fdiv 4 - yoe.fdiv 100)
  let mp : Int := (5 * doy + 2).fdiv 153
  let d : Int := doy - (153 * mp + 2).fdiv 5 + 1
  let m : Int := if mp < 10 then mp + 3 else mp - 9
  (((if m ≤ 2 then y + 1 else y).toNat), m.toNat, d.toNat)

/-- Date-string parsing, the `YYYY-M-D` shape of the template's date cells
(the modelled subset of pandas' parser; anything else raises, i.e. `none`). -/
def parseISODate (s : String) : Option (Nat × Nat × Nat) :=
  match List.splitOn '-' (pyStrip s).data with
  | [ys, ms, ds] =>
      if (ys.length == 4) && ys.all Char.isDigit &&
         (decide (1 ≤ ms.length)) && (decide (ms.length ≤ 2)) &&
         ms.all Char.isDigit &&
         (decide (1 ≤ ds.length)) && (decide (ds.length ≤ 2)) &&
         ds.all Char.isDigit then
        let y := natOfDigits ys
        let m := natOfDigits ms
        let d := natOfDigits ds
        if (decide (1 ≤ m)) && (decide (m ≤ 12)) && (decide (1 ≤ d)) &&
           (decide (d ≤ daysInMonth y m)) then
          some (y, m, d)
        else none
      else none
  | _ => none

/-- `pd.to_datetime` on a cell; `none` is the raised exception.  A date
cell is already a timestamp; a string is parsed; a number is epoch
nanoseconds (out-of-range values raise `OutOfBoundsDatetime`; the
sub-day part is irrelevant at day granularity). -/
def toDatetime : Cell → Option (Nat × Nat × Nat)
  | Cell.date y m d => some (y, m, d)
  | Cell.str s => parseISODate s
  | Cell.num d =>
      let ns := d.toInt
      if ns.natAbs ≤ 9223372036854775807 then
        some (civilFromDays (ns.fdiv 86400000000000))
      else none
  | Cell.blank => none

/-- strftime `'%-d/%-m/%y'`: day and month without padding, two-digit
zero-padded year. -/
def strftimeDMY : Nat × Nat × Nat → String
  | (y, m, d) => Nat.repr d ++ "/" ++ Nat.repr m ++ "/" ++ pad2 (y % 100)

/-- Lines 60–64 of the source: `row.get('eff date')`, then
`pd.to_datetime(...).strftime('%-d/%-m/%y')` when `pd.notna`, else `""`.
`none` is the exception `pd.to_datetime` raises on an unparseable
present value. -/
def effDateStr (c : Cell) : Option String :=
  if notna c then (toDatetime c).map strftimeDMY else some ""

/-- Lines 42–48: quantity formatting — `'0'` on failed coercion, the
truncated integer when `qty_val == int(qty_val)`, else `str(qty_val)`. -/
def qtyStr (c : Cell) : String :=
  match toNumeric c with
  | none => "0"
  | some d => if d.whole then Int.repr d.toInt else d.pyStr

/-- Lines 68–72: `str(int(pd.to_numeric(v, errors='coerce')))` when the
coercion produced a number, else `'0'`. -/
def acctStr (c : Cell) : String :=
  match toNumeric c with
  | some d => Int.repr d.toInt
  | none => "0"

/-- `str(row.get(k, '')).strip()` — the pattern used for `pt part`,
`site`, `location`, `ordernbr` and `rmks`. -/
def strField (r : Row) (k : String) : String :=
  pyStrip (cellStr (rowGetD r k (Cell.str "")))

/-- The outcome of the loop body for one row: a record's seven written
lines, a silent skip (empty part number), or a raised exception that the
`except` clause turns into a warning. -/
inductive RowOut where
  | skip
  | err
  | record (lines : List String)

/-- The body of the `for index, row in df.iterrows()` loop, lines 34–82 of
the source, one row at a time.  Each element of the returned `rec` list is
the content of one `output.write(... + '\n')` call without its final
newline. -/
def processRow (r : Row) : RowOut :=
  let pt_part := strField r "pt part"
  if pt_part = "" ∨ pyLower pt_part = "nan" then RowOut.skip
  else
    match effDateStr (rowGet r "eff date") with
    | none => RowOut.err
    | some eff_date =>
        RowOut.record
          [ "@@batchload  icunis.p"
          , "\"" ++ pt_part ++ "\" "
          , qtyStr (rowGet r "lotserial qty") ++ " - - \"" ++ strField r "site"
              ++ "\" \"" ++ strField r "location" ++ "\" \"\" \"\" "
          , "\"" ++ strField r "ordernbr" ++ "\" - - \"\" \""
              ++ strField r "rmks" ++ "\" " ++ eff_date ++ " "
              ++ acctStr (rowGet r "dr acct") ++ " "
              ++ acctStr (rowGet r "dr acct.1") ++ " "
          , "- "
          , "- "
          , "@@end" ]

/-- The newline translation of `io.StringIO(newline='\r\n')`: every `'\n'`
character written becomes `"\r\n"`. -/
def translateChars : List Char → List Char
  | [] => []
  | c :: rest =>
      (if c = '\n' then ['\r', '\n'] else [c]) ++ translateChars rest

def translateLF (s : String) : String :=
  String.mk (translateChars s.data)

/-- The text the seven `output.write` calls of one record put into the
buffer: each line, plus its `'\n'`, passed through the newline
translation. -/
def renderRecord (lines : List String) : String :=
  String.join (lines.map (fun l => translateLF (l ++ "\n")))

/-- `generate_cim_content`: the string the function returns.  `df` is the
DataFrame as an ordered list of (index label, row) pairs, as
`df.iterrows()` yields them. -/
def generate_cim_content (df : List (Nat × Row)) : String :=
  String.join (df.map (fun ir =>
    match processRow ir.2 with
    | RowOut.record ls => renderRecord ls
    | _ => ""))

/-- The `st.warning` calls of line 86, recorded as the row numbers they
display: one entry `index + 2` per row whose processing raised. -/
def cim_warnings (df : List (Nat × Row)) : List Nat :=
  df.filterMap (fun ir =>
    match processRow ir.2 with
    | RowOut.err => some (ir.1 + 2)
    | _ => none)

/-- The lines of an emitted record, `[]` for a skipped or failed row. -/
def linesOf : RowOut → List String
  | RowOut.record ls => ls
  | _ => []

/-- The raw (untranslated) text one row writes: its lines each followed by
`'\n'`, or nothing. -/
def rawRow (ir : Nat × Row) : String :=
  match processRow ir.2 with
  | RowOut.record ls => String.join (ls.map (fun l => l ++ "\n"))
  | _ => ""

/-- The condition of the `continue` on line 38: the stripped part number is
empty or reads `nan` case-insensitively. -/
abbrev ptMissing (r : Row) : Prop :=
  strField r "pt part" = "" ∨ pyLower (strField r "pt part") = "nan"

/-- `noBareLFAux prev cs`: within `cs`, every `'\n'` is immediately
preceded by `'\r'` (`prev` being the character just before `cs`). -/
def noBareLFAux (prev : Char) : List Char → Bool
  | [] => true
  | c :: rest => (c != '\n' || prev == '\r') && noBareLFAux c rest

/-- Every `'\n'` of the character list is immediately preceded by `'\r'`:
every line terminator is the CRLF pair and no bare `'\n'` occurs.  (The
seed `'A'` is an arbitrary non-CR character, so a leading `'\n'` counts
as bare.) -/
def noBareLF (cs : List Char) : Bool :=
  noBareLFAux 'A' cs

/-- The string does not end with a space character. -/
def noTrailingSpace (s : String) : Bool :=
  s.data.reverse.head? != some ' '

/-- The string ends with exactly one space character. -/
def oneTrailingSpace (s : String) : Bool :=
  match s.data.reverse with
  | ' ' :: rest => rest.head? != some ' '
  | _ => false

/-- Truncation of a rational toward zero — the value Python's `int()`
produces on a number. -/
def ratTrunc (q : ℚ) : Int :=
  if 0 ≤ q then ⌊q⌋ else -⌊-q⌋

/-- The spec's round-trip row: `pt part="ABC123"`, `lotserial qty=10`,
`site="S1"`, `location="L1"`, `ordernbr="PO99"`, `rmks="REMARK1"`,
`eff date=2024-07-03`, `dr acct=100`, `dr acct.1=200`. -/
def c1row : Row :=
  [ ("pt part", Cell.str "ABC123")
  , ("lotserial qty", Cell.num ⟨false, 10, []⟩)
  , ("site", Cell.str "S1")
  , ("location", Cell.str "L1")
  , ("ordernbr", Cell.str "PO99")
  , ("rmks", Cell.str "REMARK1")
  , ("eff date", Cell.date 2024 7 3)
  , ("dr acct", Cell.num ⟨false, 100, []⟩)
  , ("dr acct.1", Cell.num ⟨false, 200, []⟩) ]

/-- A row with a valid part number but an unparseable `eff date`. -/
def badDateRow : Row :=
  [ ("pt part", Cell.str "XPART")
  , ("eff date", Cell.str "not a date") ]

/-- A row whose part number is a missing value. -/
def blankPtRow : Row :=
  [ ("pt part", Cell.blank)
  , ("lotserial qty", Cell.num ⟨false, 3, []⟩) ]

/-- A row with a fractional quantity `5.5` and no other data. -/
def fracRow : Row :=
  [ ("pt part", Cell.str "P1")
  , ("lotserial qty", Cell.num ⟨false, 5, [(5 : Digit)]⟩) ]

/-- The fixed remainder of the quantity/site/location line after the
rendered quantity. -/
def qtyTail (r : Row) : String :=
  " - - \"" ++ strField r "site" ++ "\" \"" ++ strField r "location"
    ++ "\" \"\" \"\" "

/-! ## Structural lemmas about `processRow` and concatenation -/

theorem processRow_skip (r : Row) (h : ptMissing r) :
    processRow r = RowOut.skip := by
  unfold processRow
  rw [if_pos h]

/-- An emitted record is the seven-line template filled with the row's
formatted fields. -/
theorem processRow_record (r : Row) (lines : List String)
    (h : processRow r = RowOut.record lines) :
    ∃ ed, effDateStr (rowGet r "eff date") = some ed ∧
      lines =
        [ "@@batchload  icunis.p"
        , "\"" ++ strField r "pt part" ++ "\" "
        , qtyStr (rowGet r "lotserial qty") ++ " - - \"" ++ strField r "site"
            ++ "\" \"" ++ strField r "location" ++ "\" \"\" \"\" "
        , "\"" ++ strField r "ordernbr" ++ "\" - - \"\" \""
            ++ strField r "rmks" ++ "\" " ++ ed ++ " "
            ++ acctStr (rowGet r "dr acct") ++ " "
            ++ acctStr (rowGet r "dr acct.1") ++ " "
        , "- "
        , "- "
        , "@@end" ] := by
  unfold processRow at h
  by_cases hc : ptMissing r
  · rw [if_pos hc] at h
    exact absurd h (by simp)
  · rw [if_neg hc] at h
    cases he : effDateStr (rowGet r "eff date") with
    | none => rw [he] at h; simp at h
    | some ed =>
        rw [he] at h
        refine ⟨ed, rfl, ?_⟩
        injection h with h2
        exact h2.symm

theorem join_cons (s : String) (l : List String) :
    String.join (s :: l) = s ++ String.join l := by
  apply String.ext
  simp

theorem generate_nil : generate_cim_content [] = "" := rfl

theorem generate_cons (i : Nat) (r : Row) (xs : List (Nat × Row)) :
    generate_cim_content ((i, r) :: xs) =
      (match processRow r with
       | RowOut.record ls => renderRecord ls
       | _ => "") ++ generate_cim_content xs := by
  unfold generate_cim_content
  rw [List.map_cons, join_cons]

theorem str_nil_append (s : String) : "" ++ s = s := by
  rcases s with ⟨d⟩
  rfl

theorem generate_append (xs ys : List (Nat × Row)) :
    generate_cim_content (xs ++ ys) =
      generate_cim_content xs ++ generate_cim_content ys := by
  unfold generate_cim_content
  rw [List.map_append]
  apply String.ext
  simp

theorem warnings_nil : cim_warnings [] = [] := rfl

theorem warnings_append (xs ys : List (Nat × Row)) :
    cim_warnings (xs ++ ys) = cim_warnings xs ++ cim_warnings ys := by
  unfold cim_warnings
  exact List.filterMap_append _ _ _

theorem warnings_cons (i : Nat) (r : Row) (xs : List (Nat × Row)) :
    cim_warnings ((i, r) :: xs) =
      (match processRow r with
       | RowOut.err => [i + 2]
       | _ => []) ++ cim_warnings xs := by
  unfold cim_warnings
  rw [List.filterMap_cons]
  cases processRow r <;> rfl

/-! ## C1: the round-trip scenario -/

/-- C1, counterexample: on the spec's single valid row, the output is not
the seven claimed lines byte for byte — the part-number, quantity,
lot-reference and placeholder lines each carry a trailing space the claim
omits. -/
theorem c1_counterexample :
    generate_cim_content [(0, c1row)] ≠
      "@@batchload  icunis.p\r\n\"ABC123\"\r\n10 - - \"S1\" \"L1\" \"\" \"\"\r\n\"PO99\" - - \"\" \"REMARK1\" 3/7/24 100 200\r\n-\r\n-\r\n@@end\r\n" := by
  decide

/-- C1, amended: on the spec's single valid row, `generate_cim_content`
produces exactly the seven lines `@@batchload  icunis.p` / `"ABC123" ` /
`10 - - "S1" "L1" "" "" ` / `"PO99" - - "" "REMARK1" 3/7/24 100 200 ` /
`- ` / `- ` / `@@end`, each terminated by CRLF, where every line except
the first and the last ends in a single trailing space. -/
theorem c1_round_trip :
    generate_cim_content [(0, c1row)] =
      "@@batchload  icunis.p\r\n\"ABC123\" \r\n10 - - \"S1\" \"L1\" \"\" \"\" \r\n\"PO99\" - - \"\" \"REMARK1\" 3/7/24 100 200 \r\n- \r\n- \r\n@@end\r\n" := by
  decide

/-! ## C9: record line count -/

/-- C9, counterexample: the record emitted for the round-trip row does not
consist of six lines (it has seven: the claimed enumeration — header,
part number, quantity/site/location, lot-reference/order-number/date/
accounts, two placeholders, terminator — itself lists seven lines). -/
theorem c9_counterexample :
    ¬ ∀ lines, processRow c1row = RowOut.record lines → lines.length = 6 := by
  intro hall
  have h := hall (linesOf (processRow c1row)) rfl
  exact absurd h (by decide)

/-- C9, amended: every record emitted by `generate_cim_content` consists
of exactly seven lines in fixed order: a header line first, a part-number
line, a quantity/site/location line, a lot-reference/order-number/date/
account line, two placeholder lines at positions 4 and 5, and a
terminator line last. -/
theorem c9_seven_lines (r : Row) (lines : List String)
    (h : processRow r = RowOut.record lines) :
    lines.length = 7 ∧
    lines.head? = some "@@batchload  icunis.p" ∧
    lines.get? 4 = some "- " ∧
    lines.get? 5 = some "- " ∧
    lines.getLast? = some "@@end" := by
  obtain ⟨ed, -, hl⟩ := processRow_record r lines h
  subst hl
  exact ⟨rfl, rfl, rfl, rfl, rfl⟩

/-- C9 witness: the round-trip row's record. -/
theorem c9_seven_lines_witness :
    processRow c1row = RowOut.record (linesOf (processRow c1row)) ∧
    (linesOf (processRow c1row)).length = 7 := by
  refine ⟨rfl, ?_⟩
  exact (c9_seven_lines c1row (linesOf (processRow c1row)) rfl).1

/-! ## C2: rows with a blank part number are skipped silently -/

/-- C2: for a row whose `pt part` is missing, empty, blank after
stripping, or case-insensitively `nan`, the loop body takes the silent
`continue`: no record, no warning, and the output and warnings of any
surrounding DataFrame are exactly those without the row. -/
theorem c2_blank_part_skipped (pre post : List (Nat × Row)) (i : Nat)
    (r : Row) (h : ptMissing r) :
    processRow r = RowOut.skip ∧
    generate_cim_content (pre ++ (i, r) :: post) =
      generate_cim_content (pre ++ post) ∧
    cim_warnings (pre ++ (i, r) :: post) = cim_warnings (pre ++ post) := by
  have hs := processRow_skip r h
  refine ⟨hs, ?_, ?_⟩
  · rw [generate_append, generate_append, generate_cons, hs, str_nil_append]
  · rw [warnings_append, warnings_append, warnings_cons, hs]
    rfl

/-- C2 witness: a row whose `pt part` cell is `NaN`, between real rows. -/
theorem c2_blank_part_skipped_witness :
    ptMissing blankPtRow ∧
    generate_cim_content [(0, c1row), (1, blankPtRow)] =
      generate_cim_content [(0, c1row)] ∧
    cim_warnings [(0, c1row), (1, blankPtRow)] = [] := by
  have h := c2_blank_part_skipped [(0, c1row)] [] 1 blankPtRow (by decide)
  exact ⟨by decide, h.2.1, h.2.2.trans (by decide)⟩

/-! ## C7: per-row failure isolation -/

/-- C7: a row whose processing raises is skipped — it contributes nothing
to the output text — a warning naming its index plus the fixed header
adjustment 2 is recorded, and the rows before and after it are processed
exactly as they would be without it. -/
theorem c7_row_failure_isolated (pre post : List (Nat × Row)) (i : Nat)
    (r : Row) (h : processRow r = RowOut.err) :
    generate_cim_content (pre ++ (i, r) :: post) =
      generate_cim_content (pre ++ post) ∧
    cim_warnings (pre ++ (i, r) :: post) =
      cim_warnings pre ++ (i + 2) :: cim_warnings post := by
  refine ⟨?_, ?_⟩
  · rw [generate_append, generate_append, generate_cons, h, str_nil_append]
  · rw [warnings_append, warnings_cons, h]
    rfl

/-- C7 witness: the unparseable-date row raises, is reported as row
`0 + 2 = 2`, and the following valid row still produces its record. -/
theorem c7_row_failure_isolated_witness :
    processRow badDateRow = RowOut.err ∧
    generate_cim_content [(0, badDateRow), (1, c1row)] =
      generate_cim_content [(1, c1row)] ∧
    cim_warnings [(0, badDateRow), (1, c1row)] = [2] ∧
    generate_cim_content [(1, c1row)] ≠ "" := by
  have h := c7_row_failure_isolated [] [(1, c1row)] 0 badDateRow rfl
  exact ⟨rfl, h.1, h.2.trans (by decide), by decide⟩

/-! ## C8: every line terminator is CRLF -/

theorem translateChars_append (a b : List Char) :
    translateChars (a ++ b) = translateChars a ++ translateChars b := by
  induction a with
  | nil => rfl
  | cons c rest ih => simp [translateChars, ih]

theorem translateLF_append (a b : String) :
    translateLF (a ++ b) = translateLF a ++ translateLF b := by
  apply String.ext
  simp [translateLF, translateChars_append]

theorem noBareLFAux_translate (cs : List Char) :
    ∀ prev, noBareLFAux prev (translateChars cs) = true := by
  induction cs with
  | nil => intro prev; rfl
  | cons c rest ih =>
      intro prev
      by_cases h : c = '\n'
      · subst h
        show noBareLFAux '\n' (translateChars rest) = true
        exact ih '\n'
      · have ht : translateChars (c :: rest) = c :: translateChars rest := by
          show (if c = '\n' then ['\x0d', '\n'] else [c]) ++ translateChars rest
              = c :: translateChars rest
          rw [if_neg h]
          rfl
        have hbne : (c != '\n') = true := by simp [h]
        rw [ht]
        show ((c != '\n' || prev == '\x0d') && noBareLFAux c (translateChars rest)) = true
        rw [hbne, Bool.true_or, Bool.true_and, ih]

theorem noBareLF_translate (cs : List Char) :
    noBareLF (translateChars cs) = true :=
  noBareLFAux_translate cs 'A'

theorem translateLF_join (l : List String) :
    translateLF (String.join l) = String.join (l.map translateLF) := by
  induction l with
  | nil => rfl
  | cons s rest ih =>
      rw [join_cons, translateLF_append, ih, List.map_cons, join_cons]

theorem renderRecord_eq (ls : List String) :
    renderRecord ls =
      translateLF (String.join (ls.map (fun l => l ++ "\n"))) := by
  rw [translateLF_join, List.map_map]
  rfl

/-- The whole output is the CRLF translation of the raw text the writes
produce: the buffer's newline mode is applied to everything written. -/
theorem generate_translate (df : List (Nat × Row)) :
    generate_cim_content df = translateLF (String.join (df.map rawRow)) := by
  induction df with
  | nil => rfl
  | cons p xs ih =>
      rcases p with ⟨i, r⟩
      rw [generate_cons, ih, List.map_cons, join_cons, translateLF_append]
      congr 1
      unfold rawRow
      cases hpr : processRow r with
      | record ls => exact renderRecord_eq ls
      | skip => rfl
      | err => rfl

/-- C8: in the string `generate_cim_content` returns, every `'\n'` is
immediately preceded by `'\r'` — every line terminator is the
Windows-style CRLF pair and no bare `'\n'` occurs, whatever the input
rows contain. -/
theorem c8_crlf_only (df : List (Nat × Row)) :
    noBareLF (generate_cim_content df).data = true := by
  rw [generate_translate]
  exact noBareLF_translate _

/-! ## Character-level facts about the rendered numeric fields -/

theorem digitChar_plain (n : Nat) (hn : n < 10) :
    Nat.digitChar n ≠ '"' ∧ Nat.digitChar n ≠ ' ' := by
  interval_cases n <;> decide

theorem toDigitsCore_plain (fuel : Nat) :
    ∀ (n : Nat) (acc : List Char),
      (∀ c ∈ acc, c ≠ '"' ∧ c ≠ ' ') →
      ∀ c ∈ Nat.toDigitsCore 10 fuel n acc, c ≠ '"' ∧ c ≠ ' ' := by
  induction fuel with
  | zero => intro n acc hacc c hc; exact hacc c hc
  | succ fuel ih =>
      intro n acc hacc c hc
      have hcons : ∀ ch ∈ Nat.digitChar (n % 10) :: acc, ch ≠ '"' ∧ ch ≠ ' ' := by
        intro ch hch
        rcases List.mem_cons.mp hch with h | h
        · subst h; exact digitChar_plain _ (Nat.mod_lt _ (by norm_num))
        · exact hacc ch h
      by_cases h0 : n / 10 = 0
      · simp only [Nat.toDigitsCore, h0, if_pos] at hc
        exact hcons c hc
      · simp only [Nat.toDigitsCore, if_neg h0] at hc
        exact ih (n / 10) (Nat.digitChar (n % 10) :: acc) hcons c hc

theorem toDigitsCore_ne_nil (fuel : Nat) :
    ∀ (n : Nat) (acc : List Char), acc ≠ [] →
      Nat.toDigitsCore 10 fuel n acc ≠ [] := by
  induction fuel with
  | zero => intro n acc h; exact h
  | succ fuel ih =>
      intro n acc h
      by_cases h0 : n / 10 = 0
      · simp only [Nat.toDigitsCore, h0, if_pos]
        simp
      · simp only [Nat.toDigitsCore, if_neg h0]
        exact ih (n / 10) _ (by simp)

theorem natRepr_plain (n : Nat) :
    ∀ c ∈ (Nat.repr n).data, c ≠ '"' ∧ c ≠ ' ' := by
  intro c hc
  exact toDigitsCore_plain (n + 1) n [] (by simp) c hc

theorem natRepr_data_ne_nil (n : Nat) : (Nat.repr n).data ≠ [] := by
  show Nat.toDigitsCore 10 (n + 1) n [] ≠ []
  by_cases h0 : n / 10 = 0
  · simp only [Nat.toDigitsCore, h0, if_pos]
    simp
  · simp only [Nat.toDigitsCore, if_neg h0]
    exact toDigitsCore_ne_nil n (n / 10) _ (by simp)

theorem intRepr_plain (i : Int) :
    ∀ c ∈ (Int.repr i).data, c ≠ '"' ∧ c ≠ ' ' := by
  cases i with
  | ofNat m => intro c hc; exact natRepr_plain m c hc
  | negSucc m =>
      intro c hc
      rw [show Int.repr (Int.negSucc m) = "-" ++ Nat.repr (m + 1) from rfl,
        String.data_append] at hc
      rcases List.mem_append.mp hc with h | h
      · have h' : c ∈ ['-'] := h
        simp only [List.mem_singleton] at h'
        subst h'
        exact ⟨by decide, by decide⟩
      · exact natRepr_plain _ c h

theorem intRepr_data_ne_nil (i : Int) : (Int.repr i).data ≠ [] := by
  cases i with
  | ofNat m => exact natRepr_data_ne_nil m
  | negSucc m =>
      rw [show Int.repr (Int.negSucc m) = "-" ++ Nat.repr (m + 1) from rfl,
        String.data_append]
      simp

theorem digitCh_plain : ∀ x : Digit, digitCh x ≠ '"' ∧ digitCh x ≠ ' ' := by
  decide

theorem pyStr_plain (d : PyNum) :
    ∀ c ∈ d.pyStr.data, c ≠ '"' ∧ c ≠ ' ' := by
  intro c hc
  unfold PyNum.pyStr at hc
  simp only [String.data_append, List.mem_append] at hc
  rcases hc with ((h | h) | h) | h
  · cases hneg : d.neg with
    | false =>
        rw [hneg] at h
        exact absurd h (List.not_mem_nil c)
    | true =>
        rw [hneg] at h
        have h' : c ∈ ['-'] := h
        simp only [List.mem_singleton] at h'
        subst h'
        exact ⟨by decide, by decide⟩
  · exact natRepr_plain _ c h
  · have h' : c ∈ ['.'] := h
    simp only [List.mem_singleton] at h'
    subst h'
    exact ⟨by decide, by decide⟩
  · cases hsz : stripZeros d.fp with
    | nil =>
        rw [hsz] at h
        have h' : c ∈ ['0'] := h
        simp only [List.mem_singleton] at h'
        subst h'
        exact ⟨by decide, by decide⟩
    | cons x xs =>
        rw [hsz] at h
        have h' : c ∈ (x :: xs).map digitCh := h
        rcases List.mem_map.mp h' with ⟨y, -, hy⟩
        subst hy
        exact digitCh_plain y

theorem qtyStr_plain (cell : Cell) :
    ∀ c ∈ (qtyStr cell).data, c ≠ '"' ∧ c ≠ ' ' := by
  intro c hc
  unfold qtyStr at hc
  cases htn : toNumeric cell with
  | none =>
      rw [htn] at hc
      have h' : c ∈ ['0'] := hc
      simp only [List.mem_singleton] at h'
      subst h'
      exact ⟨by decide, by decide⟩
  | some d =>
      rw [htn] at hc
      have hc' : c ∈ (if d.whole = true then Int.repr d.toInt else d.pyStr).data := hc
      by_cases hw : d.whole = true
      · rw [if_pos hw] at hc'
        exact intRepr_plain _ c hc'
      · rw [if_neg hw] at hc'
        exact pyStr_plain d c hc'

theorem acctStr_plain (cell : Cell) :
    ∀ c ∈ (acctStr cell).data, c ≠ '"' ∧ c ≠ ' ' := by
  intro c hc
  unfold acctStr at hc
  cases htn : toNumeric cell with
  | none =>
      rw [htn] at hc
      have h' : c ∈ ['0'] := hc
      simp only [List.mem_singleton] at h'
      subst h'
      exact ⟨by decide, by decide⟩
  | some d =>
      rw [htn] at hc
      exact intRepr_plain _ c hc

theorem acctStr_data_ne_nil (cell : Cell) : (acctStr cell).data ≠ [] := by
  unfold acctStr
  cases htn : toNumeric cell with
  | none => decide
  | some d => exact intRepr_data_ne_nil d.toInt

theorem pad2_plain (n : Nat) :
    ∀ c ∈ (pad2 n).data, c ≠ '"' ∧ c ≠ ' ' := by
  intro c hc
  unfold pad2 at hc
  split at hc
  · rw [String.data_append] at hc
    rcases List.mem_append.mp hc with h | h
    · have h' : c ∈ ['0'] := h
      simp only [List.mem_singleton] at h'
      subst h'
      exact ⟨by decide, by decide⟩
    · exact natRepr_plain n c h
  · exact natRepr_plain n c hc

theorem strftimeDMY_plain (ymd : Nat × Nat × Nat) :
    ∀ c ∈ (strftimeDMY ymd).data, c ≠ '"' ∧ c ≠ ' ' := by
  rcases ymd with ⟨y, m, d⟩
  intro c hc
  unfold strftimeDMY at hc
  simp only [String.data_append, List.mem_append] at hc
  have hslash : ∀ ch ∈ String.data "/", ch ≠ '"' ∧ ch ≠ ' ' := by
    intro ch hch
    have h' : ch ∈ ['/'] := hch
    simp only [List.mem_singleton] at h'
    subst h'
    exact ⟨by decide, by decide⟩
  rcases hc with (((h | h) | h) | h) | h
  · exact natRepr_plain _ c h
  · exact hslash c h
  · exact natRepr_plain _ c h
  · exact hslash c h
  · exact pad2_plain _ c h

theorem effDateStr_plain (cell : Cell) (ed : String)
    (h : effDateStr cell = some ed) :
    ∀ c ∈ ed.data, c ≠ '"' ∧ c ≠ ' ' := by
  unfold effDateStr at h
  split at h
  · cases htd : toDatetime cell with
    | none => rw [htd] at h; simp at h
    | some ymd =>
        rw [htd] at h
        simp only [Option.map_some', Option.some.injEq] at h
        subst h
        exact strftimeDMY_plain ymd
  · injection h with h2
    subst h2
    intro c hc
    exact absurd hc (List.not_mem_nil c)

/-- The head of the reversed character list of a nonempty all-plain
string: its last character, which is neither a quote nor a space. -/
theorem rev_head_plain (l : List Char) (hne : l ≠ [])
    (hall : ∀ c ∈ l, c ≠ '"' ∧ c ≠ ' ') :
    ∃ c t, l.reverse = c :: t ∧ c ≠ '"' ∧ c ≠ ' ' := by
  cases hr : l.reverse with
  | nil =>
      exact absurd (by simpa using congrArg List.reverse hr) hne
  | cons c t =>
      refine ⟨c, t, rfl, hall c ?_⟩
      have hm : c ∈ l.reverse := by rw [hr]; exact List.mem_cons_self c t
      exact List.mem_reverse.mp hm

/-! ## C6: quoting invariant -/

/-- C6: in every emitted record the part-number line wraps the part number
in double quotes, the quantity line wraps site and location (and the two
fixed empty fields) in double quotes, and the fourth line wraps the
lot-reference and order-number in double quotes — also when the wrapped
value is empty — while the quantity, date and the two account fields are
rendered bare: their rendered strings contain no quote character. -/
theorem c6_quoting (r : Row) (lines : List String)
    (h : processRow r = RowOut.record lines) :
    ∃ ed, effDateStr (rowGet r "eff date") = some ed ∧
      lines.get? 1 = some ("\"" ++ strField r "pt part" ++ "\" ") ∧
      lines.get? 2 = some (qtyStr (rowGet r "lotserial qty") ++ " - - \""
          ++ strField r "site" ++ "\" \"" ++ strField r "location"
          ++ "\" \"\" \"\" ") ∧
      lines.get? 3 = some ("\"" ++ strField r "ordernbr" ++ "\" - - \"\" \""
          ++ strField r "rmks" ++ "\" " ++ ed ++ " "
          ++ acctStr (rowGet r "dr acct") ++ " "
          ++ acctStr (rowGet r "dr acct.1") ++ " ") ∧
      (∀ c ∈ (qtyStr (rowGet r "lotserial qty")).data, c ≠ '"') ∧
      (∀ c ∈ ed.data, c ≠ '"') ∧
      (∀ c ∈ (acctStr (rowGet r "dr acct")).data, c ≠ '"') ∧
      (∀ c ∈ (acctStr (rowGet r "dr acct.1")).data, c ≠ '"') := by
  obtain ⟨ed, hed, hl⟩ := processRow_record r lines h
  subst hl
  exact ⟨ed, hed, rfl, rfl, rfl,
    fun c hc => (qtyStr_plain _ c hc).1,
    fun c hc => (effDateStr_plain _ ed hed c hc).1,
    fun c hc => (acctStr_plain _ c hc).1,
    fun c hc => (acctStr_plain _ c hc).1⟩

/-- C6 witness: the round-trip row, where the quoted fields are visible in
the literal lines. -/
theorem c6_quoting_witness :
    processRow c1row = RowOut.record (linesOf (processRow c1row)) ∧
    (linesOf (processRow c1row)).get? 1 = some "\"ABC123\" " ∧
    (linesOf (processRow c1row)).get? 3 =
      some "\"PO99\" - - \"\" \"REMARK1\" 3/7/24 100 200 " := by
  obtain ⟨ed, hed, h1, h2, h3, -⟩ :=
    c6_quoting c1row (linesOf (processRow c1row)) rfl
  have h0 : effDateStr (rowGet c1row "eff date") = some "3/7/24" := by decide
  rw [h0] at hed
  have hede : ed = "3/7/24" := (Option.some.inj hed).symm
  subst hede
  exact ⟨rfl, h1.trans (by decide), h3.trans (by decide)⟩

/-! ## C10: trailing spaces on the payload lines -/

theorem oneTrailingSpace_append_rev (t u : String) (c : Char)
    (rest : List Char) (hu : u.data.reverse = ' ' :: c :: rest)
    (hc : c ≠ ' ') : oneTrailingSpace (t ++ u) = true := by
  unfold oneTrailingSpace
  have h2 : (t ++ u).data.reverse = ' ' :: c :: (rest ++ t.data.reverse) := by
    rw [String.data_append, List.reverse_append, hu]
    rfl
  rw [h2]
  simp [hc]

theorem oneTrailingSpace_append_sp (t : String) (c : Char)
    (rest : List Char) (ht : t.data.reverse = c :: rest) (hc : c ≠ ' ') :
    oneTrailingSpace (t ++ " ") = true := by
  unfold oneTrailingSpace
  have h2 : (t ++ " ").data.reverse = ' ' :: c :: rest := by
    rw [String.data_append, List.reverse_append, ht]
    rfl
  rw [h2]
  simp [hc]

/-- Appending an account rendering and then a single space yields a
string with exactly one trailing space: the account string is nonempty
and never ends in a space. -/
theorem oneTrailingSpace_concat_acct (t : String) (cell : Cell) :
    oneTrailingSpace ((t ++ acctStr cell) ++ " ") = true := by
  obtain ⟨c2, t2, hrev2, -, hs2⟩ :=
    rev_head_plain (acctStr cell).data (acctStr_data_ne_nil _)
      (acctStr_plain _)
  refine oneTrailingSpace_append_sp (t ++ acctStr cell) c2
    (t2 ++ t.data.reverse) ?_ hs2
  rw [String.data_append, List.reverse_append, hrev2]
  rfl

/-- C10: in every emitted record, the part-number line, the
quantity/site/location line, the lot-reference/order-number/date/account
line and the two placeholder lines each end in exactly one trailing space,
while the header line and the `@@end` terminator line end in none. -/
theorem c10_trailing_spaces (r : Row) (lines : List String)
    (h : processRow r = RowOut.record lines) :
    lines.length = 7 ∧
    noTrailingSpace (lines.getD 0 "") = true ∧
    oneTrailingSpace (lines.getD 1 "") = true ∧
    oneTrailingSpace (lines.getD 2 "") = true ∧
    oneTrailingSpace (lines.getD 3 "") = true ∧
    oneTrailingSpace (lines.getD 4 "") = true ∧
    oneTrailingSpace (lines.getD 5 "") = true ∧
    noTrailingSpace (lines.getD 6 "") = true := by
  obtain ⟨ed, hed, hl⟩ := processRow_record r lines h
  subst hl
  refine ⟨rfl,
    (by decide : noTrailingSpace "@@batchload  icunis.p" = true),
    ?_, ?_, ?_,
    (by decide : oneTrailingSpace "- " = true),
    (by decide : oneTrailingSpace "- " = true),
    (by decide : noTrailingSpace "@@end" = true)⟩
  · exact oneTrailingSpace_append_rev ("\"" ++ strField r "pt part")
      "\" " '"' [] (by decide) (by decide)
  · exact oneTrailingSpace_append_rev _ "\" \"\" \"\" " '"'
      ['"', ' ', '"', '"', ' ', '"'] (by decide) (by decide)
  · exact oneTrailingSpace_concat_acct _ _

/-- C10 witness: the round-trip row's record. -/
theorem c10_trailing_spaces_witness :
    processRow c1row = RowOut.record (linesOf (processRow c1row)) ∧
    oneTrailingSpace ((linesOf (processRow c1row)).getD 3 "") = true ∧
    noTrailingSpace ((linesOf (processRow c1row)).getD 6 "") = true := by
  have h := c10_trailing_spaces c1row (linesOf (processRow c1row)) rfl
  exact ⟨rfl, h.2.2.2.2.1, h.2.2.2.2.2.2.2⟩

/-! ## Value-level facts about the decimal numbers -/

theorem fracVal_cons (x : Digit) (xs : List Digit) :
    fracVal (x :: xs) = ((x.val : ℚ) + fracVal xs) / 10 := rfl

theorem fracVal_nonneg (l : List Digit) : 0 ≤ fracVal l := by
  induction l with
  | nil => exact le_refl 0
  | cons x xs ih =>
      rw [fracVal_cons]
      apply div_nonneg _ (by norm_num)
      have hx : (0 : ℚ) ≤ (x.val : ℚ) := by positivity
      linarith

theorem fracVal_lt_one (l : List Digit) : fracVal l < 1 := by
  induction l with
  | nil => norm_num [fracVal]
  | cons x xs ih =>
      rw [fracVal_cons]
      have h9 : x.val ≤ 9 := by omega
      have hx : (x.val : ℚ) ≤ 9 := by exact_mod_cast h9
      rw [div_lt_one (by norm_num : (0:ℚ) < 10)]
      linarith

theorem fracVal_zero_iff (l : List Digit) :
    fracVal l = 0 ↔ l.all (fun x => x == 0) = true := by
  induction l with
  | nil => simp [fracVal]
  | cons x xs ih =>
      rw [fracVal_cons, List.all_cons]
      constructor
      · intro h0
        have hsum : (x.val : ℚ) + fracVal xs = 0 := by
          rcases div_eq_zero_iff.mp h0 with h | h
          · exact h
          · norm_num at h
        have hx0 : (x.val : ℚ) = 0 ∧ fracVal xs = 0 :=
          (add_eq_zero_iff_of_nonneg (by positivity) (fracVal_nonneg xs)).mp
            hsum
        have hxv : x = 0 := by
          have hv : x.val = 0 := by exact_mod_cast hx0.1
          exact Fin.ext hv
        rw [hxv]
        simp only [Bool.and_eq_true, beq_self_eq_true, true_and]
        exact ih.mp hx0.2
      · intro hall
        simp only [Bool.and_eq_true] at hall
        obtain ⟨hx, hxs⟩ := hall
        have hx0 : x = 0 := beq_iff_eq.mp hx
        have hf0 : fracVal xs = 0 := ih.mpr hxs
        rw [hx0, hf0]
        norm_num

/-- The denominator of `ip + f` with `0 ≤ f < 1` is 1 exactly when the
fractional part `f` is zero. -/
theorem den_ip_add_frac (ip : ℕ) (f : ℚ) (hf0 : 0 ≤ f) (hf1 : f < 1) :
    ((ip : ℚ) + f).den = 1 ↔ f = 0 := by
  constructor
  · intro hden
    have hq := (Rat.den_eq_one_iff _).mp hden
    have hfk : f = ((((ip : ℚ) + f).num - (ip : ℤ) : ℤ) : ℚ) := by
      push_cast
      linarith [hq]
    have h0' : (0:ℤ) ≤ ((ip : ℚ) + f).num - (ip : ℤ) := by
      exact_mod_cast hfk ▸ hf0
    have h1' : ((ip : ℚ) + f).num - (ip : ℤ) < 1 := by
      exact_mod_cast hfk ▸ hf1
    have hk0 : ((ip : ℚ) + f).num - (ip : ℤ) = 0 := by omega
    rw [hfk, hk0]
    norm_num
  · intro hf
    rw [hf, add_zero]
    exact Rat.den_natCast ip

/-- The denominator of a `PyNum`'s value ignores the sign. -/
theorem toRat_den (d : PyNum) :
    d.toRat.den = ((d.ip : ℚ) + fracVal d.fp).den := by
  unfold PyNum.toRat
  cases hneg : d.neg with
  | false =>
      rw [show (if (false = true) then (-1:ℚ) else 1) = 1 from rfl, one_mul]
  | true =>
      rw [show (if (true = true) then (-1:ℚ) else 1) = -1 from rfl,
        neg_one_mul, Rat.neg_den]

/-- The executable wholeness test of `PyNum.whole` is the value-level
statement "the quantity's rational value has denominator 1". -/
theorem whole_iff_den_one (d : PyNum) : d.whole = true ↔ d.toRat.den = 1 := by
  rw [toRat_den]
  unfold PyNum.whole
  rw [← fracVal_zero_iff]
  exact (den_ip_add_frac d.ip (fracVal d.fp) (fracVal_nonneg d.fp)
    (fracVal_lt_one d.fp)).symm

/-- The executable wholeness test is the source's comparison
`qty_val == int(qty_val)` at the level of values. -/
theorem whole_iff_value (d : PyNum) :
    d.whole = true ↔ d.toRat = (d.toInt : ℚ) := by
  constructor
  · intro h
    have hf : fracVal d.fp = 0 := (fracVal_zero_iff d.fp).mpr h
    unfold PyNum.toRat PyNum.toInt
    rw [hf, add_zero]
    cases hneg : d.neg with
    | false =>
        rw [show (if (false = true) then (-1:ℚ) else 1) = 1 from rfl,
          one_mul,
          show (if (false = true) then (-(d.ip : Int)) else (d.ip : Int))
            = (d.ip : Int) from rfl]
        push_cast
        ring
    | true =>
        rw [show (if (true = true) then (-1:ℚ) else 1) = -1 from rfl,
          neg_one_mul,
          show (if (true = true) then (-(d.ip : Int)) else (d.ip : Int))
            = -(d.ip : Int) from rfl]
        push_cast
        ring
  · intro h
    refine (whole_iff_den_one d).mpr ?_
    rw [h]
    exact Rat.den_intCast _

/-- When the value is whole, Python's `int()` of it is the numerator of
its rational value. -/
theorem toInt_eq_num_of_whole (d : PyNum) (h : d.whole = true) :
    d.toInt = d.toRat.num := by
  have hv := (whole_iff_value d).mp h
  rw [hv]
  exact (Rat.num_intCast d.toInt).symm

/-- Python's `int()` truncation of a `PyNum` is truncation toward zero of
its rational value. -/
theorem toInt_eq_ratTrunc (d : PyNum) : d.toInt = ratTrunc d.toRat := by
  have hf0 := fracVal_nonneg d.fp
  have hf1 := fracVal_lt_one d.fp
  have hip : (0:ℚ) ≤ (d.ip : ℚ) := by positivity
  have hfloor : ⌊(d.ip : ℚ) + fracVal d.fp⌋ = (d.ip : ℤ) := by
    rw [show ((d.ip : ℚ)) = ((d.ip : ℤ) : ℚ) from by push_cast; rfl,
      Int.floor_int_add, Int.floor_eq_zero_iff.mpr ⟨hf0, hf1⟩, add_zero]
  unfold PyNum.toInt PyNum.toRat ratTrunc
  cases hneg : d.neg with
  | false =>
      rw [show (if (false = true) then (-1:ℚ) else 1) = 1 from rfl, one_mul,
        show (if (false = true) then (-(d.ip : Int)) else (d.ip : Int))
          = (d.ip : Int) from rfl,
        if_pos (by linarith : (0:ℚ) ≤ (d.ip : ℚ) + fracVal d.fp)]
      exact hfloor.symm
  | true =>
      rw [show (if (true = true) then (-1:ℚ) else 1) = -1 from rfl,
        neg_one_mul,
        show (if (true = true) then (-(d.ip : Int)) else (d.ip : Int))
          = -(d.ip : Int) from rfl]
      by_cases hq : (0:ℚ) ≤ -((d.ip : ℚ) + fracVal d.fp)
      · rw [if_pos hq]
        have hsum0 : (d.ip : ℚ) + fracVal d.fp = 0 :=
          le_antisymm (by linarith) (by linarith)
        obtain ⟨hip0, -⟩ :=
          (add_eq_zero_iff_of_nonneg hip hf0).mp hsum0
        rw [hsum0, neg_zero, Int.floor_zero]
        have hz : d.ip = 0 := by exact_mod_cast hip0
        rw [hz]
        rfl
      · rw [if_neg hq, neg_neg, hfloor]

/-! ## C3: quantity rendering -/

theorem line2_eq (r : Row) (lines : List String)
    (h : processRow r = RowOut.record lines) :
    lines.get? 2 = some (qtyStr (rowGet r "lotserial qty") ++ qtyTail r) := by
  obtain ⟨ed, -, hl⟩ := processRow_record r lines h
  subst hl
  show some _ = some _
  congr 1
  apply String.ext
  simp [qtyTail]

/-- C3: in every emitted record the quantity field renders as the plain
integer numerator when the coerced value of `lotserial qty` is whole
(denominator 1), as the full decimal rendering when it has a fractional
part, and as `0` when the field is missing or fails numeric coercion. -/
theorem c3_quantity (r : Row) (lines : List String)
    (h : processRow r = RowOut.record lines) :
    (toNumeric (rowGet r "lotserial qty") = none →
        lines.get? 2 = some ("0" ++ qtyTail r)) ∧
    (∀ d, toNumeric (rowGet r "lotserial qty") = some d →
        d.toRat.den = 1 →
        lines.get? 2 = some (Int.repr d.toRat.num ++ qtyTail r)) ∧
    (∀ d, toNumeric (rowGet r "lotserial qty") = some d →
        d.toRat.den ≠ 1 →
        lines.get? 2 = some (d.pyStr ++ qtyTail r)) := by
  refine ⟨?_, ?_, ?_⟩
  · intro htn
    have hq : qtyStr (rowGet r "lotserial qty") = "0" := by
      unfold qtyStr
      rw [htn]
    rw [line2_eq r lines h, hq]
  · intro d htn hden
    have hw : d.whole = true := (whole_iff_den_one d).mpr hden
    have hq : qtyStr (rowGet r "lotserial qty") = Int.repr d.toInt := by
      unfold qtyStr
      rw [htn]
      show (if d.whole = true then Int.repr d.toInt else d.pyStr)
          = Int.repr d.toInt
      rw [if_pos hw]
    rw [line2_eq r lines h, hq, toInt_eq_num_of_whole d hw]
  · intro d htn hden
    have hw : ¬ d.whole = true := fun hwh => hden ((whole_iff_den_one d).mp hwh)
    have hq : qtyStr (rowGet r "lotserial qty") = d.pyStr := by
      unfold qtyStr
      rw [htn]
      show (if d.whole = true then Int.repr d.toInt else d.pyStr) = d.pyStr
      rw [if_neg hw]
    rw [line2_eq r lines h, hq]

/-- C3 witness: a fractional quantity `5.5` renders as `5.5`. -/
theorem c3_quantity_witness :
    toNumeric (rowGet fracRow "lotserial qty")
      = some ⟨false, 5, [(5 : Digit)]⟩ ∧
    (linesOf (processRow fracRow)).get? 2 =
      some "5.5 - - \"\" \"\" \"\" \"\" " := by
  have hden : (⟨false, 5, [(5 : Digit)]⟩ : PyNum).toRat.den ≠ 1 := fun hden =>
    absurd ((whole_iff_den_one _).mpr hden) (by decide)
  have h := (c3_quantity fracRow (linesOf (processRow fracRow)) rfl).2.2
    ⟨false, 5, [(5 : Digit)]⟩ rfl hden
  exact ⟨rfl, h.trans (by decide)⟩

/-! ## C5: the two debit-account fields -/

/-- C5: in every emitted record the fourth line carries the rendering of
the first `dr acct` column in the account-1 position and of the
pandas-mangled second occurrence `dr acct.1` in the account-2 position;
an account cell that coerces to a number renders as its rational value
truncated toward zero (decimal fraction stripped), and as `0` when the
cell is missing or fails coercion. -/
theorem c5_accounts (r : Row) (lines : List String)
    (h : processRow r = RowOut.record lines) :
    (∃ ed, effDateStr (rowGet r "eff date") = some ed ∧
      lines.get? 3 = some ("\"" ++ strField r "ordernbr" ++ "\" - - \"\" \""
          ++ strField r "rmks" ++ "\" " ++ ed ++ " "
          ++ acctStr (rowGet r "dr acct") ++ " "
          ++ acctStr (rowGet r "dr acct.1") ++ " ")) ∧
    (∀ cell d, toNumeric cell = some d →
        acctStr cell = Int.repr (ratTrunc d.toRat)) ∧
    (∀ cell, toNumeric cell = none → acctStr cell = "0") := by
  obtain ⟨ed, hed, hl⟩ := processRow_record r lines h
  subst hl
  refine ⟨⟨ed, hed, rfl⟩, ?_, ?_⟩
  · intro cell d htn
    have hq : acctStr cell = Int.repr d.toInt := by
      unfold acctStr
      rw [htn]
    rw [hq, toInt_eq_ratTrunc d]
  · intro cell htn
    unfold acctStr
    rw [htn]

/-- C5 witness: the round-trip row, where `dr acct=100` lands in the
account-1 slot and `dr acct.1=200` in the account-2 slot. -/
theorem c5_accounts_witness :
    processRow c1row = RowOut.record (linesOf (processRow c1row)) ∧
    (linesOf (processRow c1row)).get? 3 =
      some "\"PO99\" - - \"\" \"REMARK1\" 3/7/24 100 200 " ∧
    acctStr (Cell.str "7.9") = "7" := by
  obtain ⟨⟨ed, hed, h3⟩, hsome, hnone⟩ :=
    c5_accounts c1row (linesOf (processRow c1row)) rfl
  have h0 : effDateStr (rowGet c1row "eff date") = some "3/7/24" := by decide
  rw [h0] at hed
  have hede : ed = "3/7/24" := (Option.some.inj hed).symm
  subst hede
  refine ⟨rfl, h3.trans (by decide), ?_⟩
  have h79 := hsome (Cell.str "7.9") ⟨false, 7, [(9 : Digit)]⟩ rfl
  rw [h79]
  have htr : ratTrunc (⟨false, 7, [(9 : Digit)]⟩ : PyNum).toRat = 7 := by
    rw [← toInt_eq_ratTrunc]
    decide
  rw [htr]
  rfl

/-! ## C4: effective-date rendering -/

/-- C4, counterexample: a row whose `eff date` is present but unparseable
does not yield a record with an empty date field — `pd.to_datetime`
raises, the whole row is skipped and a warning is recorded instead. -/
theorem c4_counterexample :
    processRow badDateRow = RowOut.err ∧
    generate_cim_content [(0, badDateRow)] = "" ∧
    cim_warnings [(0, badDateRow)] = [2] := by
  exact ⟨rfl, by decide, by decide⟩

/-- C4, amended: for every emitted row the date field renders as
day/month/two-digit-year with no leading zeros on day or month when
`eff date` is present and parseable, and as the empty string when
`eff date` is missing; a row whose `eff date` is present but unparseable
raises instead, so it is skipped and produces no record at all. -/
theorem c4_amended (r : Row) :
    (∀ lines, processRow r = RowOut.record lines →
      (rowGet r "eff date" = Cell.blank →
        lines.get? 3 = some ("\"" ++ strField r "ordernbr" ++ "\" - - \"\" \""
            ++ strField r "rmks" ++ "\" " ++ "" ++ " "
            ++ acctStr (rowGet r "dr acct") ++ " "
            ++ acctStr (rowGet r "dr acct.1") ++ " ")) ∧
      (∀ y m dd, toDatetime (rowGet r "eff date") = some (y, m, dd) →
        lines.get? 3 = some ("\"" ++ strField r "ordernbr" ++ "\" - - \"\" \""
            ++ strField r "rmks" ++ "\" "
            ++ (Nat.repr dd ++ "/" ++ Nat.repr m ++ "/" ++ pad2 (y % 100))
            ++ " " ++ acctStr (rowGet r "dr acct") ++ " "
            ++ acctStr (rowGet r "dr acct.1") ++ " "))) ∧
    (¬ ptMissing r → notna (rowGet r "eff date") = true →
      toDatetime (rowGet r "eff date") = none →
      processRow r = RowOut.err) := by
  refine ⟨?_, ?_⟩
  · intro lines h
    obtain ⟨ed, hed, hl⟩ := processRow_record r lines h
    subst hl
    constructor
    · intro hblank
      rw [hblank] at hed
      have h0 : effDateStr Cell.blank = some "" := rfl
      rw [h0] at hed
      have hede : ed = "" := (Option.some.inj hed).symm
      subst hede
      rfl
    · intro y m dd htd
      have hnotna : notna (rowGet r "eff date") = true := by
        cases hcell : rowGet r "eff date" with
        | blank => rw [hcell] at htd; exact absurd htd (by simp [toDatetime])
        | str s => rfl
        | num d => rfl
        | date a b c => rfl
      unfold effDateStr at hed
      rw [if_pos hnotna, htd] at hed
      simp only [Option.map_some', Option.some.injEq] at hed
      subst hed
      rfl
  · intro hpt hnotna htd
    unfold processRow
    rw [if_neg hpt]
    have he : effDateStr (rowGet r "eff date") = none := by
      unfold effDateStr
      rw [if_pos hnotna, htd]
      rfl
    rw [he]

/-- C4 witness: the round-trip row's date `2024-07-03` renders as
`3/7/24`, and the unparseable-date row raises. -/
theorem c4_amended_witness :
    toDatetime (rowGet c1row "eff date") = some (2024, 7, 3) ∧
    (linesOf (processRow c1row)).get? 3 =
      some "\"PO99\" - - \"\" \"REMARK1\" 3/7/24 100 200 " ∧
    processRow badDateRow = RowOut.err := by
  have h := ((c4_amended c1row).1 (linesOf (processRow c1row)) rfl).2
    2024 7 3 rfl
  have herr := (c4_amended badDateRow).2 (by decide) rfl (by decide)
  exact ⟨rfl, h.trans (by decide), herr⟩

end Cim
